import Mathlib

/-!
Shallow embedding of the resume / job-posting matching pipeline of
src/app.py and proofs about it.

Modelling conventions, stated once:
* Python strings are Lean String values; character-level operations are
  carried out on the underlying lists of characters, because the kernel
  reduces those reliably.
* Python float arithmetic is modelled exactly over the rationals, and the
  built-in round (round half to even) is modelled by pythonRound below.
* The outbound HTTP fetch of requests.get is impure; get_job_description
  therefore receives the fetch outcome as an explicit argument: either an
  exception message (Except.error) or a response carrying the HTTP status
  code and the parsed HTML document (Except.ok).  The parsed document is
  modelled as the list of its elements in document order, each element
  carrying its tag name, its class list, its optional id attribute, its
  plain text (get_text()) and its separator-joined text
  (get_text(separator = newline)).
* The sentence-transformer model of semantic_score is an external neural
  network; its output is passed to compute_score and run_app as an explicit
  rational argument sim, exactly where the source calls semantic_score.
* CountVectorizer of scikit-learn is embedded by its documented semantics:
  lowercase the document, tokenize by the default token pattern (maximal
  runs of word characters, keeping runs of length at least two), drop the
  built-in english stop words, build the sorted deduplicated vocabulary
  over all documents, and raise a ValueError when that vocabulary is
  empty.  Word characters and the alphabet are modelled at ASCII level.
-/

set_option maxRecDepth 100000

/-- Is the first character list a prefix of the second.  Helper for the
Python substring test and for the startswith test of run_app. -/
def leadsWith : List Char → List Char → Bool
  | [], _ => true
  | _ :: _, [] => false
  | a :: as, b :: bs => a == b && leadsWith as bs

/-- Python substring containment (the in operator on strings), on character
lists: the first list occurs contiguously inside the second. -/
def occursIn (needle : List Char) : List Char → Bool
  | [] => leadsWith needle []
  | c :: rest => leadsWith needle (c :: rest) || occursIn needle rest

/-- The fixed ordered mapping of ATS domain substrings to platform names,
in the insertion order of the Python dict ats_map of detect_ats_platform
(src/app.py lines 22-38).  Python dicts iterate in insertion order. -/
def atsMap : List (String × String) :=
  [("greenhouse.io", "Greenhouse"),
   ("myworkdayjobs.com", "Workday"),
   ("icims.com", "iCIMS"),
   ("taleo.net", "Taleo"),
   ("lever.co", "Lever"),
   ("smartrecruiters.com", "SmartRecruiters"),
   ("jobvite.com", "Jobvite"),
   ("adp.com", "ADP"),
   ("successfactors.com", "SuccessFactors"),
   ("brassring.com", "BrassRing"),
   ("jazzhr.com", "JazzHR"),
   ("breezy.hr", "BreezyHR"),
   ("jobdiva.com", "JobDiva"),
   ("bullhorn.com", "Bullhorn"),
   ("bamboohr.com", "BambooHR")]

/-- The for loop of detect_ats_platform: walk the ordered mapping and
return the platform name of the first entry whose domain substring is
contained in the URL. -/
def detectLoop : List (String × String) → String → String
  | [], _ => "Unknown"
  | (domain, name) :: rest, url =>
    if occursIn domain.data url.data then name else detectLoop rest url

/-- Embeds detect_ats_platform (src/app.py lines 21-42). -/
def detect_ats_platform (url : String) : String :=
  detectLoop atsMap url

/-- The whitespace characters matched by a regex backslash-s in Python 3
on str input: ASCII whitespace plus the Unicode whitespace code points. -/
def pyWsChars : List Char :=
  [' ', '\t', '\n', '\x0d', '\x0b', '\x0c', '\x1c', '\x1d', '\x1e', '\x1f',
   '\x85', '\xa0', '\u1680', '\u2000', '\u2001', '\u2002', '\u2003', '\u2004',
   '\u2005', '\u2006', '\u2007', '\u2008', '\u2009', '\u200a', '\u2028',
   '\u2029', '\u202f', '\u205f', '\u3000']

/-- Does a character match the regex backslash-s class. -/
def isPyWs (c : Char) : Bool :=
  pyWsChars.contains c

/-- The character class [a-zA-Z0-9 backslash-s] of the re.sub call in
clean_text: the characters which survive the substitution. -/
def keepChar (c : Char) : Bool :=
  c.isUpper || c.isLower || c.isDigit || isPyWs c

/-- Embeds clean_text (src/app.py lines 86-87): delete every character
outside the class [a-zA-Z0-9 backslash-s], then lowercase the result. -/
def clean_text (s : String) : String :=
  String.mk ((s.data.filter keepChar).map Char.toLower)

/-- A word character of the default CountVectorizer token pattern
(regex backslash-w), modelled at ASCII level: alphanumeric or underscore. -/
def isWordChar (c : Char) : Bool :=
  c.isAlphanum || c == '_'

/-- Split a character list into its maximal runs of word characters,
dropping all separator characters. -/
def splitRuns : List Char → List (List Char)
  | [] => []
  | c :: cs =>
    if isWordChar c then
      match cs with
      | [] => [[c]]
      | d :: _ =>
        if isWordChar d then
          match splitRuns cs with
          | run :: runs => (c :: run) :: runs
          | [] => [[c]]
        else [c] :: splitRuns cs
    else splitRuns cs

/-- The analyzer tokenization of CountVectorizer with default settings:
lowercase the text, then keep the maximal word-character runs of length at
least two (token pattern: word boundary, two or more word characters,
word boundary). -/
def tokenize (s : String) : List String :=
  ((splitRuns (s.data.map Char.toLower)).filter (fun run => 2 ≤ run.length)).map String.mk

/-- The built-in english stop word list of scikit-learn
(sklearn.feature_extraction.text.ENGLISH_STOP_WORDS), selected by the
stop_words equal to english argument of CountVectorizer in keyword_score. -/
def stopWords : List String :=
  ["a", "about", "above", "across", "after", "afterwards", "again",
   "against", "all", "almost", "alone", "along", "already", "also",
   "although", "always", "am", "among", "amongst", "amoungst", "amount",
   "an", "and", "another", "any", "anyhow", "anyone", "anything",
   "anyway", "anywhere", "are", "around", "as", "at", "back", "be",
   "became", "because", "become", "becomes", "becoming", "been",
   "before", "beforehand", "behind", "being", "below", "beside",
   "besides", "between", "beyond", "bill", "both", "bottom", "but",
   "by", "call", "can", "cannot", "cant", "co", "con", "could",
   "couldnt", "cry", "de", "describe", "detail", "do", "done", "down",
   "due", "during", "each", "eg", "eight", "either", "eleven", "else",
   "elsewhere", "empty", "enough", "etc", "even", "ever", "every",
   "everyone", "everything", "everywhere", "except", "few", "fifteen",
   "fifty", "fill", "find", "fire", "first", "five", "for", "former",
   "formerly", "forty", "found", "four", "from", "front", "full",
   "further", "get", "give", "go", "had", "has", "hasnt", "have", "he",
   "hence", "her", "here", "hereafter", "hereby", "herein", "hereupon",
   "hers", "herself", "him", "himself", "his", "how", "however",
   "hundred", "i", "ie", "if", "in", "inc", "indeed", "interest",
   "into", "is", "it", "its", "itself", "keep", "last", "latter",
   "latterly", "least", "less", "ltd", "made", "many", "may", "me",
   "meanwhile", "might", "mill", "mine", "more", "moreover", "most",
   "mostly", "move", "much", "must", "my", "myself", "name", "namely",
   "neither", "never", "nevertheless", "next", "nine", "no", "nobody",
   "none", "noone", "nor", "not", "nothing", "now", "nowhere", "of",
   "off", "often", "on", "once", "one", "only", "onto", "or", "other",
   "others", "otherwise", "our", "ours", "ourselves", "out", "over",
   "own", "part", "per", "perhaps", "please", "put", "rather", "re",
   "same", "see", "seem", "seemed", "seeming", "seems", "serious",
   "several", "she", "should", "show", "side", "since", "sincere",
   "six", "sixty", "so", "some", "somehow", "someone", "something",
   "sometime", "sometimes", "somewhere", "still", "such", "system",
   "take", "ten", "than", "that", "the", "their", "them", "themselves",
   "then", "thence", "there", "thereafter", "thereby", "therefore",
   "therein", "thereupon", "these", "they", "thick", "thin", "third",
   "this", "those", "though", "three", "through", "throughout", "thru",
   "thus", "to", "together", "too", "top", "toward", "towards",
   "twelve", "twenty", "two", "un", "under", "until", "up", "upon",
   "us", "very", "via", "was", "we", "well", "were", "what", "whatever",
   "when", "whence", "whenever", "where", "whereafter", "whereas",
   "whereby", "wherein", "whereupon", "wherever", "whether", "which",
   "while", "whither", "who", "whoever", "whole", "whom", "whose",
   "why", "will", "with", "within", "without", "would", "yet", "you",
   "your", "yours", "yourself", "yourselves"]

/-- The full analyzer of the CountVectorizer in keyword_score: tokenize,
then drop the english stop words. -/
def analyze (s : String) : List String :=
  (tokenize s).filter (fun t => !(stopWords.contains t))

/-- Lexicographic comparison of character lists by code point, the order
Python uses to compare and sort strings. -/
def lexLe : List Char → List Char → Bool
  | [], _ => true
  | _ :: _, [] => false
  | a :: as, b :: bs =>
    if a.toNat < b.toNat then true
    else if b.toNat < a.toNat then false
    else lexLe as bs

/-- Python string comparison (less or equal). -/
def strLe (a b : String) : Bool :=
  lexLe a.data b.data

/-- Insert a string into an already sorted list of strings. -/
def insertSorted (x : String) : List String → List String
  | [] => [x]
  | y :: ys => if strLe x y then x :: y :: ys else y :: insertSorted x ys

/-- Sort a list of strings into Python string order. -/
def sortStrings : List String → List String
  | [] => []
  | x :: xs => insertSorted x (sortStrings xs)

/-- The fitted vocabulary of CountVectorizer over a list of documents:
the set of analyzed tokens of all documents, as a sorted deduplicated
list; get_feature_names_out returns exactly this sorted list. -/
def buildVocab (docs : List String) : List String :=
  sortStrings ((docs.map analyze).flatten).dedup

/-- The matched list of keyword_score (src/app.py line 101): the
vocabulary terms, in vocabulary order, whose count is positive in the job
description vector and in the resume vector.  The vectorizer is fitted on
the document list [jd_text, resume_text], as in line 96. -/
def matchedKeywords (resume_text jd_text : String) : List String :=
  (buildVocab [jd_text, resume_text]).filter
    (fun kw => decide (0 < (analyze jd_text).count kw) &&
               decide (0 < (analyze resume_text).count kw))

/-- Embeds keyword_score (src/app.py lines 95-102).  Fitting the
vectorizer raises a ValueError when the vocabulary is empty (for example
when both texts are empty or contain only stop words); the raised
exception is the Except.error case.  Otherwise the matched list and the
ratio len(matched) / max(len(set(keywords)), 1) are returned. -/
def keyword_score (resume_text jd_text : String) :
    Except String (List String × ℚ) :=
  let keywords := buildVocab [jd_text, resume_text]
  if keywords.isEmpty then
    .error "empty vocabulary; perhaps the documents only contain stop words"
  else
    .ok (matchedKeywords resume_text jd_text,
         ((matchedKeywords resume_text jd_text).length : ℚ) /
           ((max keywords.dedup.length 1 : ℕ) : ℚ))

/-- The rounding of the Python built-in round on floats: round half to
even. -/
def pythonRound (q : ℚ) : ℤ :=
  if q - ⌊q⌋ < 1 / 2 then ⌊q⌋
  else if (1 : ℚ) / 2 < q - ⌊q⌋ then ⌊q⌋ + 1
  else if ⌊q⌋ % 2 = 0 then ⌊q⌋ else ⌊q⌋ + 1

/-- The platform dependent weight selection of compute_score (src/app.py
lines 106-110): the default (0.6, 0.4) is overwritten with (0.5, 0.5) for
the first platform group and with (0.7, 0.3) for the second. -/
def scoreWeights (platform : String) : ℚ × ℚ :=
  if platform ∈ (["Workday", "Taleo", "SuccessFactors", "ADP"] : List String) then
    (1 / 2, 1 / 2)
  else if platform ∈ (["Lever", "JazzHR", "SmartRecruiters"] : List String) then
    (7 / 10, 3 / 10)
  else (3 / 5, 2 / 5)

/-- Embeds compute_score (src/app.py lines 105-115).  The semantic
similarity sim is the value the source obtains from semantic_score (an
external neural model, hence a parameter here); a ValueError raised by
keyword_score propagates. -/
def compute_score (sim : ℚ) (resume_text jd_text platform : String) :
    Except String (ℤ × List String) :=
  match keyword_score resume_text jd_text with
  | .error e => .error e
  | .ok (matched_keywords, kw) =>
    .ok (pythonRound ((sim * (scoreWeights platform).1 +
                       kw * (scoreWeights platform).2) * 100),
         matched_keywords)

/-- One element of the parsed HTML document, in the shape BeautifulSoup
exposes to the source: tag name, class list, optional id attribute, plain
text (get_text()) and newline separated text (get_text(separator)). -/
structure HtmlElement where
  tag : String
  classes : List String
  idAttr : Option String
  textPlain : String
  textSep : String
deriving DecidableEq

/-- The outcome of a successful requests.get call: the HTTP status code
and the response body parsed by BeautifulSoup into its element list. -/
structure HttpResponse where
  status : Nat
  soupElements : List HtmlElement
deriving DecidableEq

/-- Python str.strip(): drop whitespace from both ends. -/
def pyStrip (s : String) : String :=
  String.mk (((s.data.dropWhile isPyWs).reverse.dropWhile isPyWs).reverse)

/-- BeautifulSoup soup.find(tag, class_ = cls): the first element with the
given tag name carrying the given class. -/
def findTagClass (els : List HtmlElement) (tagName cls : String) :
    Option HtmlElement :=
  els.find? (fun e => e.tag == tagName && e.classes.contains cls)

/-- BeautifulSoup soup.find(tag, id = idv): the first element with the
given tag name whose id attribute is the given string. -/
def findTagId (els : List HtmlElement) (tagName idv : String) :
    Option HtmlElement :=
  els.find? (fun e => e.tag == tagName && e.idAttr == some idv)

/-- The platform specific selector table of get_job_description
(src/app.py lines 58-73), keyed by platform name. -/
def selectorMap : List (String × String × String) :=
  [("Workday", "div", "css-1yqjbmw"),
   ("iCIMS", "div", "iCIMS_JobContent"),
   ("Taleo", "div", "requisitionDescriptionInterface.ID1527.row1"),
   ("Lever", "div", "section page-centered"),
   ("SmartRecruiters", "div", "description-section"),
   ("Jobvite", "div", "job-description"),
   ("ADP", "div", "jdp-body"),
   ("SuccessFactors", "div", "jobdescription"),
   ("BrassRing", "div", "jobdescription"),
   ("JazzHR", "div", "jobDescription"),
   ("BreezyHR", "div", "posting-section"),
   ("JobDiva", "div", "job_description"),
   ("Bullhorn", "div", "bh-job-description"),
   ("BambooHR", "div", "ats-description")]

/-- The block list of the Greenhouse fallback (src/app.py line 55): the
stripped separator-joined text of every div or section element whose plain
text is longer than 500 characters. -/
def fallbackBlocks (els : List HtmlElement) : List String :=
  (els.filter (fun t => (t.tag == "div" || t.tag == "section") &&
                        decide (500 < t.textPlain.length))).map
    (fun t => pyStrip t.textSep)

/-- Python max(blocks, key = len) on a possibly empty list: the first
block of maximal length, none when the list is empty. -/
def maxByLen : List String → Option String
  | [] => none
  | s :: rest =>
    match maxByLen rest with
    | none => some s
    | some m => some (if m.length > s.length then m else s)

/-- The fallback extraction of src/app.py lines 55-56: the longest
qualifying block, or the no-readable-description error. -/
def fallbackExtract (els : List HtmlElement) : String :=
  match maxByLen (fallbackBlocks els) with
  | some b => b
  | none => "❌ No readable job description found."

/-- Embeds get_job_description (src/app.py lines 45-83).  The fetched
argument stands for the try block around requests.get: Except.error
carries the message of a raised exception (network failure or timeout),
Except.ok carries the response.  The source never inspects the HTTP
status code of the response. -/
def get_job_description (url : String)
    (fetched : Except String HttpResponse) : String :=
  let platform := detect_ats_platform url
  match fetched with
  | .error e => "❌ Error fetching job description: " ++ e
  | .ok res =>
    let els := res.soupElements
    if platform == "Greenhouse" then
      match findTagClass els "div" "content" with
      | some t => pyStrip t.textSep
      | none => fallbackExtract els
    else
      match selectorMap.find? (fun e => e.1 == platform) with
      | some sel =>
        match findTagClass els sel.2.1 sel.2.2 with
        | some t => pyStrip t.textSep
        | none =>
          match findTagId els sel.2.1 sel.2.2 with
          | some t => pyStrip t.textSep
          | none => "❌ Could not find job description for " ++ platform ++ "."
      | none => "❌ Could not find job description for " ++ platform ++ "."

/-- The visible outcome of one run of the analysis branch of run_app:
either the error panel (no score), or a score with its matched keyword
list, or an uncaught Python exception. -/
inductive RunResult where
  | halted (message : String)
  | scored (score : ℤ) (matched_keywords : List String)
  | raised (message : String)
deriving DecidableEq

/-- Embeds the analysis branch of run_app (src/app.py lines 126-142):
clean the resume text, extract the job description, stop with the error
panel when the description starts with the cross mark, otherwise clean
the description, detect the platform and compute the score.  The resume
text (extracted from the PDF by pdfminer) and the fetch outcome and the
semantic similarity are parameters, as above. -/
def run_app (resume_text job_url : String)
    (fetched : Except String HttpResponse) (sim : ℚ) : RunResult :=
  let resume_clean := clean_text resume_text
  let jd_text := get_job_description job_url fetched
  if leadsWith "❌".data jd_text.data then
    .halted jd_text
  else
    let jd_clean := clean_text jd_text
    let platform := detect_ats_platform job_url
    match compute_score sim resume_clean jd_clean platform with
    | .error e => .raised e
    | .ok (score, matched_keywords) => .scored score matched_keywords

deriving instance DecidableEq for Except

/-- The element list a fetch outcome exposes to extraction: the parsed
elements on success, nothing on a raised exception. -/
def fetchedElements : Except String HttpResponse → List HtmlElement
  | .ok r => r.soupElements
  | .error _ => []

/-! ### Helper lemmas -/

lemma leadsWith_append (p : List Char) :
    ∀ s t : List Char, leadsWith p s = true → leadsWith p (s ++ t) = true := by
  induction p with
  | nil => intro s t _; rfl
  | cons a as ih =>
    intro s t h
    cases s with
    | nil => simp [leadsWith] at h
    | cons b bs =>
      simp only [List.cons_append, leadsWith, Bool.and_eq_true] at h ⊢
      exact ⟨h.1, ih bs t h.2⟩

lemma detectLoop_eq_find (l : List (String × String)) (url : String) :
    detectLoop l url =
      ((l.find? (fun e => occursIn e.1.data url.data)).map Prod.snd).getD "Unknown" := by
  induction l with
  | nil => rfl
  | cons p rest ih =>
    obtain ⟨d, n⟩ := p
    by_cases h : occursIn d.data url.data = true
    · simp [detectLoop, h, List.find?_cons]
    · simp [detectLoop, h, List.find?_cons, ih]

lemma lexLe_total : ∀ as bs : List Char, lexLe as bs = true ∨ lexLe bs as = true := by
  intro as
  induction as with
  | nil => intro bs; left; rfl
  | cons a as ih =>
    intro bs
    cases bs with
    | nil => right; rfl
    | cons b bs =>
      simp only [lexLe]
      rcases Nat.lt_trichotomy a.toNat b.toNat with hlt | heq | hgt
      · left; simp [hlt]
      · have h1 : ¬ a.toNat < b.toNat := by omega
        have h2 : ¬ b.toNat < a.toNat := by omega
        simp only [if_neg h1, if_neg h2]
        exact ih bs
      · right; simp [hgt]

lemma lexLe_trans :
    ∀ as bs cs : List Char,
      lexLe as bs = true → lexLe bs cs = true → lexLe as cs = true := by
  intro as
  induction as with
  | nil => intro bs cs _ _; rfl
  | cons a as ih =>
    intro bs cs hab hbc
    cases bs with
    | nil => simp [lexLe] at hab
    | cons b bs =>
      cases cs with
      | nil => simp [lexLe] at hbc
      | cons c cs =>
        simp only [lexLe] at hab hbc ⊢
        by_cases h1 : a.toNat < b.toNat
        · by_cases h2 : b.toNat < c.toNat
          · have h3 : a.toNat < c.toNat := by omega
            simp [h3]
          · by_cases h3 : c.toNat < b.toNat
            · rw [if_neg h2, if_pos h3] at hbc
              exact absurd hbc (by simp)
            · have h4 : a.toNat < c.toNat := by omega
              simp [h4]
        · by_cases h1' : b.toNat < a.toNat
          · rw [if_neg h1, if_pos h1'] at hab
            exact absurd hab (by simp)
          · rw [if_neg h1, if_neg h1'] at hab
            by_cases h2 : b.toNat < c.toNat
            · have h3 : a.toNat < c.toNat := by omega
              simp [h3]
            · by_cases h3 : c.toNat < b.toNat
              · rw [if_neg h2, if_pos h3] at hbc
                exact absurd hbc (by simp)
              · rw [if_neg h2, if_neg h3] at hbc
                have h4 : ¬ a.toNat < c.toNat := by omega
                have h5 : ¬ c.toNat < a.toNat := by omega
                rw [if_neg h4, if_neg h5]
                exact ih bs cs hab hbc

lemma strLe_total (a b : String) : strLe a b = true ∨ strLe b a = true :=
  lexLe_total a.data b.data

lemma strLe_trans (a b c : String) :
    strLe a b = true → strLe b c = true → strLe a c = true :=
  lexLe_trans a.data b.data c.data

lemma mem_insertSorted {x y : String} :
    ∀ {l : List String}, y ∈ insertSorted x l → y = x ∨ y ∈ l := by
  intro l
  induction l with
  | nil => simp [insertSorted]
  | cons z zs ih =>
    simp only [insertSorted]
    by_cases h : strLe x z = true
    · rw [if_pos h]
      intro hy
      rcases List.mem_cons.mp hy with rfl | h1
      · left; rfl
      · right; exact h1
    · rw [if_neg h]
      intro hy
      rcases List.mem_cons.mp hy with rfl | h1
      · right; exact List.mem_cons_self y zs
      · rcases ih h1 with h2 | h2
        · left; exact h2
        · right; exact List.mem_cons_of_mem z h2

lemma pairwise_insertSorted (x : String) :
    ∀ l : List String,
      List.Pairwise (fun u v => strLe u v = true) l →
      List.Pairwise (fun u v => strLe u v = true) (insertSorted x l) := by
  intro l
  induction l with
  | nil => intro _; simp [insertSorted]
  | cons y ys ih =>
    intro hp
    rw [List.pairwise_cons] at hp
    obtain ⟨hy, hys⟩ := hp
    simp only [insertSorted]
    by_cases h : strLe x y = true
    · rw [if_pos h, List.pairwise_cons]
      constructor
      · intro z hz
        rcases List.mem_cons.mp hz with rfl | hz'
        · exact h
        · exact strLe_trans x y z h (hy z hz')
      · rw [List.pairwise_cons]; exact ⟨hy, hys⟩
    · rw [if_neg h, List.pairwise_cons]
      constructor
      · intro z hz
        rcases mem_insertSorted hz with rfl | hz'
        · rcases strLe_total z y with h1 | h1
          · exact absurd h1 h
          · exact h1
        · exact hy z hz'
      · exact ih hys

lemma sorted_sortStrings :
    ∀ l : List String, List.Pairwise (fun u v => strLe u v = true) (sortStrings l) := by
  intro l
  induction l with
  | nil => simp [sortStrings]
  | cons x xs ih => exact pairwise_insertSorted x _ ih

lemma perm_insertSorted (x : String) :
    ∀ l : List String, (insertSorted x l).Perm (x :: l) := by
  intro l
  induction l with
  | nil => exact List.Perm.refl _
  | cons y ys ih =>
    simp only [insertSorted]
    by_cases h : strLe x y = true
    · rw [if_pos h]
    · rw [if_neg h]
      exact (ih.cons y).trans (List.Perm.swap x y ys)

lemma perm_sortStrings : ∀ l : List String, (sortStrings l).Perm l := by
  intro l
  induction l with
  | nil => exact List.Perm.refl _
  | cons x xs ih => exact (perm_insertSorted x (sortStrings xs)).trans (ih.cons x)

lemma nodup_buildVocab (docs : List String) : (buildVocab docs).Nodup :=
  (perm_sortStrings (((docs.map analyze).flatten).dedup)).symm.nodup
    (List.nodup_dedup _)

lemma sorted_buildVocab (docs : List String) :
    List.Pairwise (fun u v => strLe u v = true) (buildVocab docs) :=
  sorted_sortStrings _

lemma maxByLen_mem : ∀ (l : List String) (x : String), maxByLen l = some x → x ∈ l := by
  intro l
  induction l with
  | nil => intro x h; simp [maxByLen] at h
  | cons s rest ih =>
    intro x h
    simp only [maxByLen] at h
    cases hm : maxByLen rest with
    | none =>
      rw [hm] at h
      simp only [Option.some.injEq] at h
      rw [← h]
      exact List.mem_cons_self s rest
    | some m =>
      rw [hm] at h
      simp only [Option.some.injEq] at h
      by_cases hc : m.length > s.length
      · rw [if_pos hc] at h
        rw [← h]
        exact List.mem_cons_of_mem s (ih m hm)
      · rw [if_neg hc] at h
        rw [← h]
        exact List.mem_cons_self s rest

lemma keyword_score_ok_elim {a b : String} {m : List String} {r : ℚ}
    (h : keyword_score a b = .ok (m, r)) :
    m = matchedKeywords a b ∧
    r = ((matchedKeywords a b).length : ℚ) /
        ((max (buildVocab [b, a]).dedup.length 1 : ℕ) : ℚ) := by
  simp only [keyword_score] at h
  by_cases he : (buildVocab [b, a]).isEmpty
  · rw [if_pos he] at h
    exact absurd h (by simp)
  · rw [if_neg he] at h
    simp only [Except.ok.injEq, Prod.mk.injEq] at h
    exact ⟨h.1.symm, h.2.symm⟩

lemma keyword_ratio_bounds {a b : String} {m : List String} {r : ℚ}
    (h : keyword_score a b = .ok (m, r)) : 0 ≤ r ∧ r ≤ 1 := by
  obtain ⟨hm, hr⟩ := keyword_score_ok_elim h
  have hnd : (buildVocab [b, a]).dedup = buildVocab [b, a] :=
    List.dedup_eq_self.mpr (nodup_buildVocab _)
  have hlen : (matchedKeywords a b).length ≤ (buildVocab [b, a]).length :=
    List.length_filter_le _ _
  have hden : (0 : ℚ) < ((max (buildVocab [b, a]).dedup.length 1 : ℕ) : ℚ) := by
    have : 1 ≤ max (buildVocab [b, a]).dedup.length 1 := le_max_right _ _
    exact_mod_cast Nat.lt_of_lt_of_le Nat.zero_lt_one this
  constructor
  · rw [hr]
    exact div_nonneg (Nat.cast_nonneg _) (le_of_lt hden)
  · rw [hr]
    rw [div_le_one hden]
    have : (matchedKeywords a b).length ≤ max (buildVocab [b, a]).dedup.length 1 := by
      rw [hnd]
      exact le_trans hlen (le_max_left _ _)
    exact_mod_cast this

lemma scoreWeights_props (p : String) :
    0 ≤ (scoreWeights p).1 ∧ 0 ≤ (scoreWeights p).2 ∧
    (scoreWeights p).1 + (scoreWeights p).2 = 1 := by
  unfold scoreWeights
  split_ifs <;> norm_num

lemma pythonRound_bounds {q : ℚ} (h0 : 0 ≤ q) (h1 : q ≤ 100) :
    0 ≤ pythonRound q ∧ pythonRound q ≤ 100 := by
  have hf0 : (0 : ℤ) ≤ ⌊q⌋ := Int.floor_nonneg.mpr h0
  have hf100 : ⌊q⌋ ≤ 100 := by
    have h2 : ⌊q⌋ ≤ ⌊(100 : ℚ)⌋ := Int.floor_le_floor h1
    have h3 : ⌊(100 : ℚ)⌋ = 100 := by norm_num
    omega
  have hflq : (⌊q⌋ : ℚ) ≤ q := Int.floor_le q
  unfold pythonRound
  split_ifs with hc1 hc2 hc3
  · exact ⟨hf0, hf100⟩
  · have hge : (1 : ℚ) / 2 ≤ q - ⌊q⌋ := not_lt.mp hc1
    have hlt : (⌊q⌋ : ℚ) < 100 := by linarith
    have : ⌊q⌋ < 100 := by exact_mod_cast hlt
    omega
  · exact ⟨hf0, hf100⟩
  · have hge : (1 : ℚ) / 2 ≤ q - ⌊q⌋ := not_lt.mp hc1
    have hlt : (⌊q⌋ : ℚ) < 100 := by linarith
    have : ⌊q⌋ < 100 := by exact_mod_cast hlt
    omega

lemma isPyWs_not_latin_upper {c : Char} (h : isPyWs c = true) :
    ¬ (65 ≤ c.toNat ∧ c.toNat ≤ 90) := by
  have hm : c ∈ pyWsChars := by simpa [isPyWs] using h
  fin_cases hm <;> decide

lemma toLower_of_not_latin_upper {c : Char}
    (h : ¬ (65 ≤ c.toNat ∧ c.toNat ≤ 90)) : Char.toLower c = c := by
  unfold Char.toLower
  simp [h]

lemma isUpper_eq_false_iff {c : Char} :
    c.isUpper = false ↔ ¬ (65 ≤ c.toNat ∧ c.toNat ≤ 90) := by
  constructor
  · intro h
    intro hc
    have : c.isUpper = true := by
      simp only [Char.isUpper, Bool.and_eq_true, decide_eq_true_eq, ge_iff_le]
      exact ⟨hc.1, hc.2⟩
    rw [this] at h
    exact absurd h (by simp)
  · intro h
    cases hb : c.isUpper with
    | false => rfl
    | true =>
      exfalso
      apply h
      simp only [Char.isUpper, Bool.and_eq_true, decide_eq_true_eq, ge_iff_le] at hb
      exact ⟨hb.1, hb.2⟩

lemma keepChar_toLower {c : Char} (h : keepChar c = true) :
    keepChar (Char.toLower c) = true ∧
    Char.toLower (Char.toLower c) = Char.toLower c ∧
    ((Char.toLower c).isLower || (Char.toLower c).isDigit ||
      isPyWs (Char.toLower c)) = true ∧
    isPyWs (Char.toLower c) = isPyWs c := by
  by_cases hu : 65 ≤ c.toNat ∧ c.toNat ≤ 90
  · obtain ⟨h65, h90⟩ := hu
    have hc : c = Char.ofNat c.toNat := (Char.ofNat_toNat c).symm
    rw [hc]
    generalize c.toNat = n at h65 h90
    interval_cases n <;> decide
  · have hl : Char.toLower c = c := toLower_of_not_latin_upper hu
    rw [hl]
    refine ⟨h, hl, ?_, rfl⟩
    have hup : c.isUpper = false := isUpper_eq_false_iff.mpr hu
    simp only [keepChar, hup, Bool.false_or] at h
    exact h

lemma isPyWs_toLower_self {c : Char} (h : isPyWs c = true) : Char.toLower c = c :=
  toLower_of_not_latin_upper (isPyWs_not_latin_upper h)

lemma keepChar_of_not {c : Char} (h : keepChar c = false) : isPyWs c = false := by
  cases hb : isPyWs c with
  | false => rfl
  | true =>
    exfalso
    simp only [keepChar, hb, Bool.or_true] at h
    exact absurd h (by simp)

lemma clean_chars_class_and_ws : ∀ l : List Char,
    (∀ c ∈ (l.filter keepChar).map Char.toLower,
      (c.isLower || c.isDigit || isPyWs c) = true)
    ∧ ((l.filter keepChar).map Char.toLower).filter isPyWs = l.filter isPyWs := by
  intro l
  induction l with
  | nil => exact ⟨by simp, by simp⟩
  | cons c rest ih =>
    obtain ⟨ih1, ih2⟩ := ih
    by_cases hk : keepChar c = true
    · obtain ⟨hkeep, hidem, hclass, hws⟩ := keepChar_toLower hk
      constructor
      · intro d hd
        rw [List.filter_cons_of_pos hk, List.map_cons] at hd
        rcases List.mem_cons.mp hd with rfl | hd'
        · exact hclass
        · exact ih1 d hd'
      · rw [List.filter_cons_of_pos hk, List.map_cons]
        by_cases hw : isPyWs c = true
        · rw [List.filter_cons_of_pos (by rw [hws]; exact hw),
              List.filter_cons_of_pos hw, ih2, isPyWs_toLower_self hw]
        · have hw' : ¬ isPyWs (Char.toLower c) = true := by
            rw [hws]; exact hw
          rw [List.filter_cons_of_neg hw', List.filter_cons_of_neg hw, ih2]
    · have hk' : keepChar c = false := by
        cases hb : keepChar c with
        | false => rfl
        | true => exact absurd hb hk
      have hwsf : isPyWs c = false := keepChar_of_not hk'
      constructor
      · intro d hd
        rw [List.filter_cons_of_neg hk] at hd
        exact ih1 d hd
      · rw [List.filter_cons_of_neg hk,
            List.filter_cons_of_neg (by rw [hwsf]; exact Bool.false_ne_true), ih2]

lemma clean_chars_idem : ∀ l : List Char,
    (((l.filter keepChar).map Char.toLower).filter keepChar).map Char.toLower =
      (l.filter keepChar).map Char.toLower := by
  intro l
  induction l with
  | nil => simp
  | cons c rest ih =>
    by_cases hk : keepChar c = true
    · obtain ⟨hkeep, hidem, _, _⟩ := keepChar_toLower hk
      rw [List.filter_cons_of_pos hk, List.map_cons,
          List.filter_cons_of_pos hkeep, List.map_cons, hidem, ih]
    · rw [List.filter_cons_of_neg hk]
      exact ih

lemma kw_python_eval : keyword_score "python" "python" = .ok (["python"], 1) := by
  have h1 : buildVocab ["python", "python"] = ["python"] := by decide
  have h2 : matchedKeywords "python" "python" = ["python"] := by decide
  simp only [keyword_score, h1, h2]
  norm_num

lemma kw_pydev_eval :
    keyword_score "python developer" "python developer" =
      .ok (["developer", "python"], 1) := by
  have h1 : buildVocab ["python developer", "python developer"] =
      ["developer", "python"] := by decide
  have h2 : matchedKeywords "python developer" "python developer" =
      ["developer", "python"] := by decide
  have h3 : (["developer", "python"] : List String).dedup = ["developer", "python"] := by
    decide
  simp only [keyword_score, h1, h2, h3]
  norm_num

lemma kw_devaws_eval :
    keyword_score "python developer aws" "python developer kubernetes" =
      .ok (["developer", "python"], 1 / 2) := by
  have h1 : buildVocab ["python developer kubernetes", "python developer aws"] =
      ["aws", "developer", "kubernetes", "python"] := by decide
  have h2 : matchedKeywords "python developer aws" "python developer kubernetes" =
      ["developer", "python"] := by decide
  have h3 : (["aws", "developer", "kubernetes", "python"] : List String).dedup =
      ["aws", "developer", "kubernetes", "python"] := by decide
  simp only [keyword_score, h1, h2, h3]
  norm_num

lemma kw_alphagamma_eval :
    keyword_score "alpha beta" "gamma delta" = .ok ([], 0) := by
  have h1 : buildVocab ["gamma delta", "alpha beta"] =
      ["alpha", "beta", "delta", "gamma"] := by decide
  have h2 : matchedKeywords "alpha beta" "gamma delta" = [] := by decide
  simp only [keyword_score, h1, h2]
  norm_num

/-! ### Claim theorems -/

/-- C1: for every URL string, detect_ats_platform returns the platform
name of the first entry (in insertion order) of the fixed ordered mapping
whose domain substring is contained in the URL, and Unknown when no
mapped substring is contained; being a total Lean function, it always
returns a value and has no error path.  The second conjunct checks the
example of the specification on a Greenhouse URL. -/
theorem detect_ats_platform_first_match :
    (∀ url : String,
      detect_ats_platform url =
        ((atsMap.find? (fun e => occursIn e.1.data url.data)).map Prod.snd).getD
          "Unknown")
    ∧ detect_ats_platform "https://boards.greenhouse.io/acme/jobs/1" =
        "Greenhouse" :=
  ⟨fun url => detectLoop_eq_find atsMap url, by decide⟩

/-- C2 counterexample: with both inputs empty the fitted vocabulary is
empty and the vectorizer raises the empty-vocabulary ValueError, so
keyword_score raises instead of returning the ratio 0. -/
theorem keyword_score_empty_inputs_raise :
    keyword_score "" "" =
      .error "empty vocabulary; perhaps the documents only contain stop words" := by
  decide

/-- C2 (amended): whenever keyword_score returns (the vectorizer fit
succeeded), the ratio lies in [0, 1]; the max-with-1 denominator never
divides by zero, but on two empty inputs the fit raises before the
guard matters (see the counterexample). -/
theorem keyword_score_ratio_in_unit :
    ∀ (a b : String) (m : List String) (r : ℚ),
      keyword_score a b = .ok (m, r) → 0 ≤ r ∧ r ≤ 1 := by
  intro a b m r h
  exact keyword_ratio_bounds h

/-- Witness for the C2 theorem at a concrete successful run. -/
theorem keyword_score_ratio_in_unit_witness : 0 ≤ (1 : ℚ) ∧ (1 : ℚ) ≤ 1 :=
  keyword_score_ratio_in_unit "python" "python" ["python"] 1 kw_python_eval

/-- C8: clean_text removes exactly the characters outside the class of
letters, digits and whitespace, lowercases the remainder, and preserves
the whitespace characters unchanged (not collapsed); every output
character is a lowercase letter, a digit or whitespace. -/
theorem clean_text_removes_and_lowercases :
    ∀ s : String,
      (∀ c ∈ (clean_text s).data, (c.isLower || c.isDigit || isPyWs c) = true)
      ∧ (clean_text s).data.filter isPyWs = s.data.filter isPyWs
      ∧ (clean_text s).data =
          (s.data.filter (fun c => c.isAlpha || c.isDigit || isPyWs c)).map
            Char.toLower := by
  intro s
  obtain ⟨h1, h2⟩ := clean_chars_class_and_ws s.data
  refine ⟨h1, h2, ?_⟩
  have hcongr : s.data.filter (fun c => c.isAlpha || c.isDigit || isPyWs c) =
      s.data.filter keepChar := by
    apply List.filter_congr
    intro c _
    simp [keepChar, Char.isAlpha, Bool.or_assoc]
  rw [hcongr]
  rfl

/-- C9: clean_text is idempotent, and on the example of the specification
it yields the expected string. -/
theorem clean_text_idempotent :
    (∀ x : String, clean_text (clean_text x) = clean_text x)
    ∧ clean_text "Hello, World! 123" = "hello world 123" := by
  constructor
  · intro x
    exact congrArg String.mk (clean_chars_idem x.data)
  · decide

/-- C5: compute_score selects the weights (0.5, 0.5) for the
Workday/Taleo/SuccessFactors/ADP group, (0.7, 0.3) for the
Lever/JazzHR/SmartRecruiters group, (0.6, 0.4) for every other platform
including Unknown, and returns exactly
round((sim * w_sem + kw * w_kw) * 100) with the matched keyword list. -/
theorem compute_score_weights_and_formula :
    ∀ (sim : ℚ) (a b p : String) (m : List String) (kw : ℚ),
      keyword_score a b = .ok (m, kw) →
      compute_score sim a b p =
        .ok (pythonRound ((sim * (scoreWeights p).1 +
              kw * (scoreWeights p).2) * 100), m)
      ∧ (p ∈ (["Workday", "Taleo", "SuccessFactors", "ADP"] : List String) →
          scoreWeights p = (1 / 2, 1 / 2))
      ∧ (p ∈ (["Lever", "JazzHR", "SmartRecruiters"] : List String) →
          scoreWeights p = (7 / 10, 3 / 10))
      ∧ (p ∉ (["Workday", "Taleo", "SuccessFactors", "ADP"] : List String) →
          p ∉ (["Lever", "JazzHR", "SmartRecruiters"] : List String) →
          scoreWeights p = (3 / 5, 2 / 5)) := by
  intro sim a b p m kw h
  refine ⟨by simp [compute_score, h], ?_, ?_, ?_⟩
  · intro hp
    unfold scoreWeights
    rw [if_pos hp]
  · intro hp
    have hnot : p ∉ (["Workday", "Taleo", "SuccessFactors", "ADP"] : List String) := by
      fin_cases hp <;> decide
    unfold scoreWeights
    rw [if_neg hnot, if_pos hp]
  · intro h1 h2
    unfold scoreWeights
    rw [if_neg h1, if_neg h2]

/-- Witness for the C5 theorem at a concrete successful run. -/
theorem compute_score_weights_and_formula_witness :
    compute_score 1 "python" "python" "Workday" =
      .ok (pythonRound ((1 * (scoreWeights "Workday").1 +
            1 * (scoreWeights "Workday").2) * 100), ["python"]) :=
  (compute_score_weights_and_formula 1 "python" "python" "Workday" ["python"] 1
    kw_python_eval).1

/-- C6: on a successful run, a vocabulary term is matched exactly when its
count is positive in both the job description vector and the resume
vector; the matched list is a subset of the joint vocabulary, it is in
vocabulary iteration order (alphabetical, since the vocabulary is
sorted), and the ratio is the matched count over max(vocabulary size, 1). -/
theorem keyword_score_matched_characterization :
    ∀ (a b : String) (m : List String) (r : ℚ),
      keyword_score a b = .ok (m, r) →
      (∀ w, w ∈ m ↔ w ∈ buildVocab [b, a] ∧
          0 < (analyze b).count w ∧ 0 < (analyze a).count w)
      ∧ m ⊆ buildVocab [b, a]
      ∧ List.Pairwise (fun u v => strLe u v = true) m
      ∧ r = (m.length : ℚ) /
          ((max (buildVocab [b, a]).dedup.length 1 : ℕ) : ℚ) := by
  intro a b m r h
  obtain ⟨hm, hr⟩ := keyword_score_ok_elim h
  subst hm
  have hiff : ∀ w, w ∈ matchedKeywords a b ↔
      w ∈ buildVocab [b, a] ∧
        0 < (analyze b).count w ∧ 0 < (analyze a).count w := by
    intro w
    simp [matchedKeywords, List.mem_filter]
  refine ⟨hiff, ?_, ?_, hr⟩
  · intro w hw
    exact ((hiff w).mp hw).1
  · exact (sorted_buildVocab [b, a]).filter _

/-- Witness for the C6 theorem at a concrete successful run. -/
theorem keyword_score_matched_characterization_witness :
    List.Pairwise (fun u v => strLe u v = true) ["developer", "python"] :=
  (keyword_score_matched_characterization "python developer aws"
    "python developer kubernetes" ["developer", "python"] (1 / 2)
    kw_devaws_eval).2.2.1

/-- C7 counterexample: the similarity -1 lies in [-1, 1] and the keyword
ratio 0 lies in [0, 1], yet with the Unknown weights the score is
round(-60) = -60, which is not in [0, 100]. -/
theorem similarity_lower_bound_breaks_range :
    ((-1 : ℚ) ≤ -1 ∧ (-1 : ℚ) ≤ 1) ∧
    compute_score (-1) "alpha beta" "gamma delta" "Unknown" = .ok (-60, []) ∧
    (-60 : ℤ) < 0 := by
  refine ⟨by norm_num, ?_, by norm_num⟩
  have hw : scoreWeights "Unknown" = (3 / 5, 2 / 5) := by simp [scoreWeights]
  simp only [compute_score, kw_alphagamma_eval, hw]
  norm_num [pythonRound]

/-- C7 (amended): with the semantic similarity in [0, 1] (as it is in
practice for the sentence embeddings of natural text) the returned score
is an integer in [0, 100]; with similarity as low as -1 the bound fails,
see the counterexample. -/
theorem compute_score_in_unit_range :
    ∀ (sim : ℚ) (a b p : String) (s : ℤ) (m : List String),
      0 ≤ sim → sim ≤ 1 →
      compute_score sim a b p = .ok (s, m) →
      0 ≤ s ∧ s ≤ 100 := by
  intro sim a b p s m h0 h1 h
  cases hk : keyword_score a b with
  | error e =>
    simp only [compute_score, hk] at h
    exact absurd h (by simp)
  | ok pr =>
    obtain ⟨mk, kw⟩ := pr
    simp only [compute_score, hk] at h
    simp only [Except.ok.injEq, Prod.mk.injEq] at h
    obtain ⟨hs, hmm⟩ := h
    obtain ⟨hkw0, hkw1⟩ := keyword_ratio_bounds hk
    obtain ⟨hw1, hw2, hw3⟩ := scoreWeights_props p
    have hb0 : 0 ≤ sim * (scoreWeights p).1 + kw * (scoreWeights p).2 :=
      add_nonneg (mul_nonneg h0 hw1) (mul_nonneg hkw0 hw2)
    have hb1 : sim * (scoreWeights p).1 + kw * (scoreWeights p).2 ≤ 1 := by
      have e1 : sim * (scoreWeights p).1 ≤ (scoreWeights p).1 := by nlinarith
      have e2 : kw * (scoreWeights p).2 ≤ (scoreWeights p).2 := by nlinarith
      linarith
    have hq0 : 0 ≤ (sim * (scoreWeights p).1 + kw * (scoreWeights p).2) * 100 := by
      linarith
    have hq1 : (sim * (scoreWeights p).1 + kw * (scoreWeights p).2) * 100 ≤ 100 := by
      linarith
    have hres := pythonRound_bounds hq0 hq1
    rw [← hs]
    exact hres

/-- Witness for the C7 amended theorem at a concrete run. -/
theorem compute_score_in_unit_range_witness : (0 : ℤ) ≤ 70 ∧ (70 : ℤ) ≤ 100 :=
  compute_score_in_unit_range (1 / 2) "python" "python" "Unknown" 70 ["python"]
    (by norm_num) (by norm_num)
    (by
      have hw : scoreWeights "Unknown" = (3 / 5, 2 / 5) := by simp [scoreWeights]
      simp only [compute_score, kw_python_eval, hw]
      norm_num [pythonRound])

/-- C3 counterexample: a platform-Unknown page containing a div whose
plain text has 501 characters (a qualifying fallback block); the code
returns the not-found error without trying the fallback, although the
fallback would have extracted the block. -/
theorem unknown_platform_skips_fallback :
    get_job_description "https://jobs.example.com/1"
        (.ok ⟨200, [⟨"div", [], none, String.mk (List.replicate 501 'a'),
                     String.mk (List.replicate 501 'a')⟩]⟩) =
      "❌ Could not find job description for Unknown."
    ∧ fallbackExtract [⟨"div", [], none, String.mk (List.replicate 501 'a'),
                        String.mk (List.replicate 501 'a')⟩] =
        String.mk (List.replicate 501 'a')
    ∧ 500 < (String.mk (List.replicate 501 'a')).length := by
  refine ⟨by decide, by decide, by decide⟩

/-- C3 (amended): the long-block fallback strategy is used only inside
the Greenhouse branch, namely when the div-content selector finds
nothing; for the Unknown platform, and for any mapped platform whose
specific selector finds nothing (neither by class nor by id), the
not-found error is returned directly, without the fallback scan. -/
theorem fallback_only_for_greenhouse :
    ∀ (url : String) (res : HttpResponse),
      (detect_ats_platform url = "Greenhouse" →
        findTagClass res.soupElements "div" "content" = none →
        get_job_description url (.ok res) = fallbackExtract res.soupElements)
      ∧ (detect_ats_platform url = "Unknown" →
        get_job_description url (.ok res) =
          "❌ Could not find job description for Unknown.")
      ∧ (∀ sel : String × String × String,
        selectorMap.find? (fun e => e.1 == detect_ats_platform url) = some sel →
        findTagClass res.soupElements sel.2.1 sel.2.2 = none →
        findTagId res.soupElements sel.2.1 sel.2.2 = none →
        get_job_description url (.ok res) =
          "❌ Could not find job description for " ++
            detect_ats_platform url ++ ".") := by
  intro url res
  refine ⟨?_, ?_, ?_⟩
  · intro h1 h2
    simp [get_job_description, h1, h2]
  · intro h1
    have hsel : selectorMap.find? (fun e => e.1 == "Unknown") = none := by decide
    simp [get_job_description, h1, hsel]
  · intro sel hsel h2 h3
    have hmem : sel ∈ selectorMap := List.mem_of_find?_eq_some hsel
    have hpred := List.find?_some hsel
    have hplat : sel.1 = detect_ats_platform url := by simpa using hpred
    have hne : ¬ (detect_ats_platform url == "Greenhouse") = true := by
      simp only [beq_iff_eq]
      intro hg
      have hgh : sel.1 = "Greenhouse" := hplat.trans hg
      fin_cases hmem <;> simp_all
    simp only [get_job_description, if_neg hne, hsel, h2, h3]

/-- Witness for the C3 amended theorem: a Greenhouse page without the
div-content selector falls back, an Unknown page gets the error, and a
Workday page whose selector misses by class and by id gets the error. -/
theorem fallback_only_for_greenhouse_witness :
    get_job_description "https://boards.greenhouse.io/a"
        (.ok ⟨200, [⟨"section", [], none, String.mk (List.replicate 501 'b'),
                     String.mk (List.replicate 501 'b')⟩]⟩) =
      fallbackExtract [⟨"section", [], none, String.mk (List.replicate 501 'b'),
                       String.mk (List.replicate 501 'b')⟩]
    ∧ get_job_description "https://jobs.example.org/2" (.ok ⟨200, []⟩) =
        "❌ Could not find job description for Unknown."
    ∧ get_job_description "https://x.myworkdayjobs.com/1" (.ok ⟨200, []⟩) =
        "❌ Could not find job description for " ++
          detect_ats_platform "https://x.myworkdayjobs.com/1" ++ "." :=
  ⟨(fallback_only_for_greenhouse "https://boards.greenhouse.io/a"
      ⟨200, [⟨"section", [], none, String.mk (List.replicate 501 'b'),
              String.mk (List.replicate 501 'b')⟩]⟩).1 (by decide) (by decide),
   (fallback_only_for_greenhouse "https://jobs.example.org/2" ⟨200, []⟩).2.1
      (by decide),
   (fallback_only_for_greenhouse "https://x.myworkdayjobs.com/1" ⟨200, []⟩).2.2
      ("Workday", "div", "css-1yqjbmw") (by decide) (by decide) (by decide)⟩

/-- C4 counterexample: a response with HTTP status 500 whose body carries
the Workday selector element.  The source never inspects the status code,
so extraction succeeds on the error page body and a score is produced,
refuting the claim that a non-200 status yields a fetch error and no
score. -/
theorem non_200_response_still_scored :
    (HttpResponse.mk 500
        [⟨"div", ["css-1yqjbmw"], none, "python developer", "python developer"⟩]).status
      = 500
    ∧ run_app "python developer" "https://acme.myworkdayjobs.com/j"
        (.ok ⟨500, [⟨"div", ["css-1yqjbmw"], none, "python developer",
                     "python developer"⟩]⟩) 1 =
      .scored 100 ["developer", "python"] := by
  constructor
  · rfl
  · have hcs : compute_score 1 "python developer" "python developer" "Workday" =
        .ok (100, ["developer", "python"]) := by
      have hw : scoreWeights "Workday" = (1 / 2, 1 / 2) := by simp [scoreWeights]
      simp only [compute_score, kw_pydev_eval, hw]
      norm_num [pythonRound]
    have hjd : get_job_description "https://acme.myworkdayjobs.com/j"
        (.ok ⟨500, [⟨"div", ["css-1yqjbmw"], none, "python developer",
                     "python developer"⟩]⟩) = "python developer" := by decide
    have hlw : leadsWith "❌".data "python developer".data = false := by decide
    have hcl : clean_text "python developer" = "python developer" := by decide
    have hdet : detect_ats_platform "https://acme.myworkdayjobs.com/j" =
        "Workday" := by decide
    simp only [run_app, hjd, hcl, hlw, hdet, hcs]
    rfl

set_option maxHeartbeats 1000000 in
/-- C4 (amended): a network failure or timeout (an exception raised by
requests.get) yields the fetch-error-tagged description, and run_app
halts with the error panel before any scoring; a non-200 status however
is not detected (see the counterexample), the body of such a response is
parsed like any other. -/
theorem fetch_exception_halts_before_scoring :
    ∀ (url msg resume : String) (sim : ℚ),
      get_job_description url (.error msg) =
        "❌ Error fetching job description: " ++ msg
      ∧ leadsWith "❌".data (get_job_description url (.error msg)).data = true
      ∧ run_app resume url (.error msg) sim =
          .halted ("❌ Error fetching job description: " ++ msg) := by
  intro url msg resume sim
  have h1 : get_job_description url (.error msg) =
      "❌ Error fetching job description: " ++ msg := rfl
  have h2 : leadsWith "❌".data
      ("❌ Error fetching job description: " ++ msg).data = true := by
    rw [String.data_append]
    exact leadsWith_append _ _ _ (by decide)
  refine ⟨h1, by rw [h1]; exact h2, ?_⟩
  unfold run_app
  rw [h1, if_pos h2]

/-- C10 counterexample: a page whose selector element text itself starts
with the cross mark.  Extraction succeeds (the selector finds the
element), yet the returned text starts with the error prefix, so run_app
misclassifies the successful extraction as a failure and halts without a
score. -/
theorem successful_extraction_with_error_prefix :
    findTagClass [⟨"div", ["css-1yqjbmw"], none, "❌ fake", "❌ fake"⟩]
        "div" "css-1yqjbmw" =
      some ⟨"div", ["css-1yqjbmw"], none, "❌ fake", "❌ fake"⟩
    ∧ get_job_description "https://acme.myworkdayjobs.com/k"
        (.ok ⟨200, [⟨"div", ["css-1yqjbmw"], none, "❌ fake", "❌ fake"⟩]⟩) =
      "❌ fake"
    ∧ leadsWith "❌".data "❌ fake".data = true
    ∧ run_app "python developer" "https://acme.myworkdayjobs.com/k"
        (.ok ⟨200, [⟨"div", ["css-1yqjbmw"], none, "❌ fake", "❌ fake"⟩]⟩) 1 =
      .halted "❌ fake" :=
  ⟨by decide, by decide, by decide, by decide⟩

/-- C10 (amended): get_job_description is total by construction (the
try-except region maps every raised exception to the fetch-error string),
and every outcome either starts with the cross-mark error prefix (the
three error strings all do) or is the stripped text of some element of
the fetched document.  A successful extraction therefore starts with the
prefix only when the page text itself does - which is possible, see the
counterexample - so the startswith branch of run_app identifies failures
only up to such adversarial page content. -/
theorem get_job_description_outcomes :
    ∀ (url : String) (fetched : Except String HttpResponse),
      leadsWith "❌".data (get_job_description url fetched).data = true
      ∨ ∃ e, e ∈ fetchedElements fetched ∧
          get_job_description url fetched = pyStrip e.textSep := by
  intro url fetched
  cases fetched with
  | error msg =>
    left
    have h1 : get_job_description url (.error msg) =
        "❌ Error fetching job description: " ++ msg := rfl
    rw [h1, String.data_append]
    exact leadsWith_append _ _ _ (by decide)
  | ok res =>
    simp only [get_job_description, fetchedElements]
    split
    · -- Greenhouse branch
      split
      · -- selector found an element
        next t ht =>
          right
          exact ⟨t, List.mem_of_find?_eq_some ht, rfl⟩
      · -- fallback
        unfold fallbackExtract
        split
        · next b hb =>
            right
            have hmem := maxByLen_mem _ _ hb
            simp only [fallbackBlocks, List.mem_map] at hmem
            obtain ⟨e, he, heq⟩ := hmem
            exact ⟨e, List.mem_of_mem_filter he, heq.symm⟩
        · left; decide
    · -- non-Greenhouse platform
      split
      · -- selector table has an entry
        split
        · next t ht =>
            right
            exact ⟨t, List.mem_of_find?_eq_some ht, rfl⟩
        · split
          · next t ht2 =>
              right
              exact ⟨t, List.mem_of_find?_eq_some ht2, rfl⟩
          · left
            rw [String.data_append, String.data_append]
            exact leadsWith_append _ _ _ (leadsWith_append _ _ _ (by decide))
      · left
        rw [String.data_append, String.data_append]
        exact leadsWith_append _ _ _ (leadsWith_append _ _ _ (by decide))
